import Mathlib

/-!
Verification of the django-unmanaged-assistant core against its specification.

The three source files are embedded shallowly:
* `management/core/db_handlers.py` — `types_are_compatible`, `parse_table_name`,
  and the per-vendor default schemas;
* `management/core/manager.py` — `is_app_eligible`, `collect_unmanaged_models`,
  `model_dispatcher`, `process_models` and the `temporary_table_name` context
  manager (modelled as an explicit enter/unwind state machine over the models'
  `db_table` fields);
* `management/core/abstract.py` — abstract interface only; no executable code.

Python strings are modelled as Lean `String` (a structure over `List Char`);
Python string primitives that the source uses (`lower`, `strip`, `split`,
substring membership) are re-implemented below over the character list, so
every definition evaluates by kernel reduction.
-/

namespace DjangoUnmanagedAssistant

/-! ### Python string primitives used by the source -/

/-- Python `str.lower()` restricted to the ASCII range (character-wise
lowering), which is exact for every string the source compares. -/
def pyLower (s : String) : String := ⟨s.data.map Char.toLower⟩

/-- Python `str.strip(chars)`: remove every leading and trailing character
that belongs to `chars`. -/
def pyStrip (chars : List Char) (s : String) : String :=
  ⟨((s.data.dropWhile (fun c => chars.contains c)).reverse.dropWhile
      (fun c => chars.contains c)).reverse⟩

/-- The double-quote character, `'"'` in the Python source. -/
def dquoteChar : Char := Char.ofNat 34

/-- The single-quote character, `"'"` in the Python source. -/
def squoteChar : Char := Char.ofNat 39

/-- Python `c in s` for a single character `c`. -/
def strContains (s : String) (c : Char) : Bool := s.data.contains c

/-- Python `needle in hay` for strings: `needle` occurs contiguously in
`hay`.  `leadsWith n h` is the prefix test at one position. -/
def leadsWith : List Char → List Char → Bool
  | [], _ => true
  | _ :: _, [] => false
  | a :: as, b :: bs => a == b && leadsWith as bs

/-- Python substring membership `needle in hay`. -/
def occursWithin (n : List Char) : List Char → Bool
  | [] => leadsWith n []
  | c :: t => leadsWith n (c :: t) || occursWithin n t

/-- Python `s.split(sep, 1)` on a single-character separator, returning the
two sides of the first occurrence, or `none` when the separator is absent
(in which case Python's list has a single element and `parts[1]` raises
`IndexError`). -/
def splitOnceChar (c : Char) : List Char → Option (List Char × List Char)
  | [] => none
  | x :: xs =>
    if x == c then some ([], xs)
    else (splitOnceChar c xs).map (fun p => (x :: p.1, p.2))

/-- Python `s.split(".")[-1]`: everything after the last dot (the whole
string when no dot occurs). -/
def lastDotComponent (s : String) : String :=
  ⟨(s.data.reverse.takeWhile (fun c => c != '.')).reverse⟩

/-- Python `str.strip()` (no argument): strip surrounding whitespace. -/
def pyStripWS (s : String) : String :=
  ⟨((s.data.dropWhile Char.isWhitespace).reverse.dropWhile
      Char.isWhitespace).reverse⟩

/-! ### db_handlers.py — `DataBaseCoreHandler.types_are_compatible` -/

/-- The `compatible_types` dictionary literal of
`DataBaseCoreHandler.types_are_compatible` (db_handlers.py lines 24–31),
as an association list in source order. -/
def compatible_types : List (String × List String) :=
  [ ("int", ["int", "integer", "smallint", "bigint"]),
    ("varchar", ["varchar", "char", "text", "nvarchar", "nchar"]),
    ("float", ["float", "real", "double precision"]),
    ("decimal", ["decimal", "numeric"]),
    ("datetime", ["datetime", "timestamp", "date", "time"]),
    ("bool", ["bool", "boolean", "bit"]) ]

/-- db_handlers.py lines 7–37.  `existing_type.lower() if existing_type
else ""` is Python truthiness: the empty string is the only falsy `str`. -/
def types_are_compatible (existing_type expected_type : String) : Bool :=
  let existing := if existing_type = "" then "" else pyLower existing_type
  let expected := if expected_type = "" then "" else pyLower expected_type
  compatible_types.any (fun g => g.2.contains existing && g.2.contains expected)

/-- Spec-side canonicalization, following the claim's words: case-fold, and
an empty or unknown name canonicalizes to the empty string. -/
def canonical_type (s : String) : String :=
  let l := if s = "" then "" else pyLower s
  if compatible_types.any (fun g => g.2.contains l) then l else ""

/-- Spec-side compatibility: the two canonicalized names belong to one and
the same synonym group of the closed partition. -/
def compatible_spec (a b : String) : Bool :=
  compatible_types.any
    (fun g => g.2.contains (canonical_type a) && g.2.contains (canonical_type b))

/-! ### db_handlers.py — `DataBaseCoreHandler.parse_table_name` -/

/-- `s.strip('"').strip("'")` from db_handlers.py lines 71–72. -/
def stripQuotes (s : String) : String :=
  pyStrip [squoteChar] (pyStrip [dquoteChar] s)

/-- db_handlers.py lines 39–73, with the connection's
`get_default_schema()` result passed in as `default_schema`.  The result is
`none` exactly when the Python code raises (`parts[1]` with no `"."` in a
bracket-containing name is an `IndexError`). -/
def parse_table_name (default_schema : String) (table_name : String) :
    Option (String × String) :=
  if strContains table_name '[' && strContains table_name ']' then
    match splitOnceChar '.' table_name.data with
    | some (p0, p1) =>
        some (stripQuotes (pyStrip ['[', ']'] ⟨p0⟩),
              stripQuotes (pyStrip ['[', ']'] ⟨p1⟩))
    | none => none
  else if strContains table_name '.' then
    match splitOnceChar '.' table_name.data with
    | some (p0, p1) => some (stripQuotes ⟨p0⟩, stripQuotes ⟨p1⟩)
    | none => none
  else
    some (stripQuotes default_schema, stripQuotes table_name)

/-- `PostgreSQLHandler.get_default_schema` (db_handlers.py line 81). -/
def PostgreSQLHandler_get_default_schema : String := "public"

/-- `MSSQLHandler.get_default_schema` (db_handlers.py line 89). -/
def MSSQLHandler_get_default_schema : String := "dbo"

/-- `SQLiteHandler.get_default_schema` (db_handlers.py line 97). -/
def SQLiteHandler_get_default_schema : String := "main"

/-! ### manager.py — data model -/

/-- The slice of a Django model visible to manager.py: `_meta.app_label`,
`_meta.db_table` (mutable during a run) and `_meta.managed`. -/
structure MModel where
  app_label : String
  db_table : String
  managed : Bool
deriving DecidableEq

/-- The slice of a Django `AppConfig` visible to manager.py: `name`, `path`,
`label`, and the result of `get_models()`. -/
structure AppConfig where
  name : String
  path : String
  label : String
  models : List MModel
deriving DecidableEq

/-- The Django settings attributes manager.py reads.  Attributes read via
`getattr(…, default)` are `Option`s (`none` = attribute absent, so the
`getattr` default applies); the two dictionaries are association lists. -/
structure Settings where
  EXCLUDE_UNMANAGED_PATH : Option String
  ADDITIONAL_UNMANAGED_TABLE_APPS : Option (List String)
  APP_TO_DATABASE_MAPPING : List (String × String)
  DATABASES : List (String × String)
deriving DecidableEq

/-- manager.py lines 28–46: `ModelData` bundles a model with its settings;
`database_settings` and `django_database` may both be Python `None`. -/
structure ModelData where
  model : MModel
  database_settings : Option String
  django_database : Option String
deriving DecidableEq

/-- Tag for the concrete `DatabaseHandler` subclasses of db_handlers.py. -/
inductive DatabaseHandler where
  | core
  | postgresql
  | mssql
  | sqlite
deriving DecidableEq

/-- manager.py lines 49–54: the `DatabaseManager` state is its settings and
the `handlers` dictionary initialised to `{}`. -/
structure DatabaseManager where
  settings : Settings
  handlers : List (String × DatabaseHandler)
deriving DecidableEq

/-! ### manager.py — `is_app_eligible`, `collect_unmanaged_models`,
`model_dispatcher` -/

/-- manager.py lines 69–85.  The exclusion path is read from the manager's
own settings (`self.settings`), the allow-list from the ambient module
`settings` import; both are passed explicitly here. -/
def is_app_eligible (self_settings global_settings : Settings)
    (app_config : AppConfig) : Bool :=
  let app_name := lastDotComponent app_config.name
  let exclude_path := self_settings.EXCLUDE_UNMANAGED_PATH.getD "site-packages"
  let is_local_app := !occursWithin exclude_path.data app_config.path.data
  let is_additional_app :=
    (global_settings.ADDITIONAL_UNMANAGED_TABLE_APPS.getD []).contains app_name
  is_local_app || is_additional_app

/-- The `ModelData` values that the loop body of `collect_unmanaged_models`
(manager.py lines 97–103) constructs, in loop order.  Python's
`dict.get` returns `None` for an absent key, and `DATABASES.get(None)` is
again `None`. -/
def collected_model_data (self : DatabaseManager) (app_config : AppConfig) :
    List ModelData :=
  (app_config.models.filter (fun m => !m.managed)).map (fun model =>
    let app_database := self.settings.APP_TO_DATABASE_MAPPING.lookup app_config.label
    let setting_database :=
      match app_database with
      | none => none
      | some a => self.settings.DATABASES.lookup a
    ⟨model, setting_database, app_database⟩)

/-- manager.py lines 87–103: every constructed `ModelData` is discarded and
the method returns `None`; the manager is returned unchanged. -/
def collect_unmanaged_models (self : DatabaseManager) (app_config : AppConfig) :
    DatabaseManager × Unit :=
  let _ := collected_model_data self app_config
  (self, ())

/-- manager.py lines 56–67: the body computes `model._meta.app_label` into a
local and falls through, returning Python `None` despite the
`DatabaseHandler` annotation; the manager is untouched. -/
def model_dispatcher (self : DatabaseManager) (model : MModel)
    (_settings : Settings) : DatabaseManager × Option DatabaseHandler :=
  let model_app := model.app_label
  let _ := model_app
  (self, none)

/-! ### manager.py — connection resolution and grouping
(`process_models` lines 115–127) -/

/-- manager.py lines 117–123: `db_alias = "default"`; an entry is used only
when the mapping dict is truthy (non-empty) and the looked-up value is
truthy (a non-empty string). -/
def resolve_db_alias (mapping : List (String × String)) (app_label : String) :
    String :=
  if mapping.isEmpty then "default"
  else
    match mapping.lookup app_label with
    | none => "default"
    | some db_name => if db_name = "" then "default" else db_name

/-- One step of `models_by_connection[connection].append(model)` with dict
insertion-order semantics (manager.py lines 124–127). -/
def insertIntoGroup : List (String × List MModel) → String → MModel →
    List (String × List MModel)
  | [], a, m => [(a, [m])]
  | (k, ms) :: rest, a, m =>
    if k = a then (k, ms ++ [m]) :: rest
    else (k, ms) :: insertIntoGroup rest a m

/-- The `models_by_connection` dictionary built by the first loop of
`process_models` (manager.py lines 115–127), keyed by the resolved
connection alias. -/
def groupModelsByAlias (mapping : List (String × String))
    (models : List MModel) : List (String × List MModel) :=
  models.foldl (fun acc m => insertIntoGroup acc (resolve_db_alias mapping m.app_label) m) []

/-! ### manager.py — `temporary_table_name` and the per-connection unit
(lines 130–170)

One connection's group of models is mutable state (each model's
`_meta.db_table`).  `temporary_table_name` records the original name,
installs the formatted name (except on sqlite), and restores the original
in its `finally`; `process_models` enters one such context per model on an
`ExitStack` inside the connection's `schema_editor` scope, so contexts are
released in reverse acquisition order on every exit, before the
transactional scope closes. -/

/-- Read `models[i]._meta.db_table` (out-of-range reads return `""`; every
index the run uses is in range). -/
def getTable (ms : List MModel) (i : Nat) : String :=
  ((ms.get? i).map MModel.db_table).getD ""

/-- Write `models[i]._meta.db_table = t` (no-op out of range). -/
def setTable : List MModel → Nat → String → List MModel
  | [], _, _ => []
  | m :: ms, 0, t => { m with db_table := t } :: ms
  | m :: ms, Nat.succ i, t => m :: setTable ms i t

/-- The body of `temporary_table_name` up to its `yield` (manager.py lines
158–166), for one model's current `db_table`: on sqlite nothing is written;
otherwise `parse_table_name` then `get_formatted_table_name` produce the
temporary name, `none` meaning the exception path (e.g. `IndexError` from
`parse_table_name`).  `fmt` abstracts `get_formatted_table_name`, which
`abstract.py` declares but no source file implements. -/
def djangoRename (vendor default_schema : String)
    (fmt : String → String → String) (name : String) : Option String :=
  if vendor = "sqlite" then some name
  else (parse_table_name default_schema name).map (fun p => fmt p.1 p.2)

/-- The `for model in models: stack.enter_context(temporary_table_name …)`
loop (manager.py lines 135–138).  `st` is the `ExitStack`: for each
successfully entered context it records `(index, original db_table)`, most
recent first.  A `none` rename is an exception raised before the model's
`db_table` was written: entry stops there with the third component
`false`. -/
def enterFrom (rename : String → Option String) :
    List Nat → List MModel → List (Nat × String) →
    List MModel × List (Nat × String) × Bool
  | [], ms, st => (ms, st, true)
  | i :: is, ms, st =>
    match rename (getTable ms i) with
    | none => (ms, st, false)
    | some t => enterFrom rename is (setTable ms i t) ((i, getTable ms i) :: st)

/-- `ExitStack.__exit__` / the `finally` of every entered
`temporary_table_name`: restore recorded originals in reverse acquisition
order. -/
def unwind (st : List (Nat × String)) (ms : List MModel) : List MModel :=
  st.foldl (fun acc p => setTable acc p.1 p.2) ms

/-- The `for model in models: self.create_table_for_model …` loop (manager.py
lines 140–142).  `create_table_for_model` is declared nowhere in the three
source files, so its success is abstracted by `ddlFails`; the loop stops at
the first exception.  Returns the indices attempted and whether one
failed. -/
def ddlRun (ddlFails : Nat → Bool) : List Nat → List Nat × Bool
  | [] => ([], false)
  | i :: is =>
    if ddlFails i then ([i], true)
    else
      let r := ddlRun ddlFails is
      (i :: r.1, r.2)

/-- Observable outcome of one connection's unit. -/
structure UnitOutcome where
  models : List MModel
  processed : List Nat
  committed : Bool
  errored : Bool
deriving DecidableEq

/-- One iteration of the per-connection loop of `process_models` (manager.py
lines 130–142): enter all rename contexts, run the DDL loop when entry
succeeded, and in every case release the `ExitStack` before the
`schema_editor` scope closes.  `schema_editor` commits only on a clean
exit; an exception rolls back and propagates (`errored`). -/
def processConnectionUnit (rename : String → Option String)
    (ddlFails : Nat → Bool) (ms : List MModel) : UnitOutcome :=
  let e := enterFrom rename (List.range ms.length) ms []
  if e.2.2 then
    let r := ddlRun ddlFails (List.range ms.length)
    { models := unwind e.2.1 e.1, processed := r.1,
      committed := !r.2, errored := r.2 }
  else
    { models := unwind e.2.1 e.1, processed := [], committed := false,
      errored := true }

/-- The per-connection unit outcomes, each computed independently of the
other connections (`ddlFails` is indexed by the connection's position). -/
def unitOutcomes (rename : String → Option String)
    (ddlFails : Nat → Nat → Bool) (groups : List (List MModel)) :
    List UnitOutcome :=
  (List.enumFrom 0 groups).map (fun gi => processConnectionUnit rename (ddlFails gi.1) gi.2)

/-- The run keeps the outcomes of the units it reached, stopping right after
the first unit whose exception propagated. -/
def takeThroughFirstErrored : List UnitOutcome → List UnitOutcome
  | [] => []
  | o :: os => if o.errored then [o] else o :: takeThroughFirstErrored os

/-- Helper for `processRun`, carrying the connection index. -/
def processRunFrom (rename : String → Option String)
    (ddlFails : Nat → Nat → Bool) : Nat → List (List MModel) →
    List UnitOutcome
  | _, [] => []
  | g, grp :: rest =>
    let o := processConnectionUnit rename (ddlFails g) grp
    if o.errored then [o]
    else o :: processRunFrom rename ddlFails (g + 1) rest

/-- The `for connection, models in models_by_connection.items()` loop of
`process_models` (manager.py lines 130–142).  The loop body has no
exception handler, so an exception in one unit ends the loop: units after
it produce no outcome. -/
def processRun (rename : String → Option String)
    (ddlFails : Nat → Nat → Bool) (groups : List (List MModel)) :
    List UnitOutcome :=
  processRunFrom rename ddlFails 0 groups

/-! ### Spec-modelled entry point

The management command that drives the manager is not among the three
source files; only its callees are. -/

/-- Modelled from the spec: the missing management-command entry point
iterates the installed app configs, applies the eligibility filter once to
each app, collects the unmanaged models of the eligible apps (spec §4.4
step 1), and only then hands them to the connection grouping of
`process_models` (spec §4.4 step 2). -/
def collectEligibleModels (self_settings global_settings : Settings)
    (apps : List AppConfig) : List MModel :=
  (apps.filter (is_app_eligible self_settings global_settings)).foldr
    (fun cfg acc => cfg.models.filter (fun m => !m.managed) ++ acc) []

/-- Modelled from the spec: filtering happens once, before connection
grouping (spec §4.4 steps 1–2 in order). -/
def runGrouping (self_settings global_settings : Settings)
    (apps : List AppConfig) : List (String × List MModel) :=
  groupModelsByAlias global_settings.APP_TO_DATABASE_MAPPING
    (collectEligibleModels self_settings global_settings apps)

/-! ### Helper lemmas: table writes and the rename stack -/

theorem setTable_eq_of_getTable (ms : List MModel) (i : Nat) :
    setTable ms i (getTable ms i) = ms := by
  induction ms generalizing i with
  | nil => cases i <;> rfl
  | cons m ms ih =>
    cases i with
    | zero => rfl
    | succ n =>
      show m :: setTable ms n (getTable (m :: ms) (n + 1)) = m :: ms
      have : getTable (m :: ms) (n + 1) = getTable ms n := rfl
      rw [this, ih]

theorem setTable_setTable (ms : List MModel) (i : Nat) (t t' : String) :
    setTable (setTable ms i t) i t' = setTable ms i t' := by
  induction ms generalizing i with
  | nil => cases i <;> rfl
  | cons m ms ih =>
    cases i with
    | zero => rfl
    | succ n =>
      show m :: setTable (setTable ms n t) n t' = m :: setTable ms n t'
      rw [ih]

theorem unwind_nil (ms : List MModel) : unwind [] ms = ms := rfl

theorem unwind_cons (i : Nat) (t : String) (st : List (Nat × String))
    (ms : List MModel) :
    unwind ((i, t) :: st) ms = unwind st (setTable ms i t) := rfl

/-- Releasing whatever `enterFrom` put on the stack undoes whatever it did
to the models: the rename phase, stopped anywhere, composed with the stack
release is the identity on the group's state. -/
theorem unwind_enterFrom (rename : String → Option String) (is : List Nat) :
    ∀ ms st,
      unwind (enterFrom rename is ms st).2.1 (enterFrom rename is ms st).1 =
        unwind st ms := by
  induction is with
  | nil => intro ms st; rfl
  | cons i is ih =>
    intro ms st
    show unwind (match rename (getTable ms i) with
      | none => (ms, st, false)
      | some t => enterFrom rename is (setTable ms i t)
          ((i, getTable ms i) :: st)).2.1
      (match rename (getTable ms i) with
      | none => (ms, st, false)
      | some t => enterFrom rename is (setTable ms i t)
          ((i, getTable ms i) :: st)).1 = unwind st ms
    cases h : rename (getTable ms i) with
    | none => rfl
    | some t =>
      rw [ih, unwind_cons, setTable_setTable, setTable_eq_of_getTable]

/-- Every exit of one connection's unit leaves every model's `db_table` at
its value on entry. -/
theorem processConnectionUnit_models (rename : String → Option String)
    (ddlFails : Nat → Bool) (ms : List MModel) :
    (processConnectionUnit rename ddlFails ms).models = ms := by
  unfold processConnectionUnit
  by_cases h : (enterFrom rename (List.range ms.length) ms []).2.2 <;>
    simp [h, unwind_enterFrom, unwind_nil]

/-- When the rename phase itself fails, no DDL is attempted. -/
theorem processConnectionUnit_processed_nil (rename : String → Option String)
    (ddlFails : Nat → Bool) (ms : List MModel)
    (h : (enterFrom rename (List.range ms.length) ms []).2.2 = false) :
    (processConnectionUnit rename ddlFails ms).processed = [] := by
  unfold processConnectionUnit
  simp [h]

/-- When the raw name contains no separator character, Python's
`split(".", 1)` yields a single part and `parts[1]` raises. -/
theorem splitOnceChar_eq_none (c : Char) :
    ∀ l : List Char, l.contains c = false → splitOnceChar c l = none := by
  intro l
  induction l with
  | nil => intro _; rfl
  | cons x xs ih =>
    intro h
    rw [List.contains_cons, Bool.or_eq_false_iff] at h
    have hxc : x ≠ c := Ne.symm (beq_eq_false_iff_ne.mp h.1)
    simp [splitOnceChar, hxc, ih h.2]

/-- The run trace of `processRunFrom` is the prefix of the independent unit
outcomes up to and including the first errored one. -/
theorem processRunFrom_eq_take (rename : String → Option String)
    (ddl : Nat → Nat → Bool) :
    ∀ (gs : List (List MModel)) (g : Nat),
      processRunFrom rename ddl g gs =
        takeThroughFirstErrored ((List.enumFrom g gs).map
          (fun gi => processConnectionUnit rename (ddl gi.1) gi.2)) := by
  intro gs
  induction gs with
  | nil => intro g; rfl
  | cons grp rest ih =>
    intro g
    simp only [processRunFrom, List.enumFrom, List.map, takeThroughFirstErrored]
    by_cases h : (processConnectionUnit rename (ddl g) grp).errored <;>
      simp [h, ih]

/-- In a truncated run trace, every outcome except possibly the last one is
non-errored. -/
theorem takeThrough_dropLast_not_errored :
    ∀ os : List UnitOutcome,
      ∀ o ∈ (takeThroughFirstErrored os).dropLast, o.errored = false := by
  intro os
  induction os with
  | nil => intro o ho; simp [takeThroughFirstErrored] at ho
  | cons x xs ih =>
    intro o ho
    by_cases hx : x.errored
    · rw [show takeThroughFirstErrored (x :: xs) = [x] by
        simp [takeThroughFirstErrored, hx]] at ho
      simp at ho
    · rw [show takeThroughFirstErrored (x :: xs) =
          x :: takeThroughFirstErrored xs by
        simp [takeThroughFirstErrored, hx]] at ho
      cases hts : takeThroughFirstErrored xs with
      | nil => rw [hts] at ho; simp at ho
      | cons y ys =>
        rw [hts] at ho
        have hstep : (x :: y :: ys).dropLast = x :: (y :: ys).dropLast := rfl
        rw [hstep] at ho
        rcases List.mem_cons.mp ho with h | h
        · subst h; simpa using hx
        · exact ih o (by rw [hts]; exact h)

/-- C1: for every model processed in a run, whenever the
`temporary_table_name` scope exits — on normal completion, on an exception
raised while processing a later entity (any `ddlFails` pattern), or on any
other error (a failing rename, `none` from `djangoRename`) — the model's
`_meta.db_table` is restored to its original declared value before the
connection's transactional scope closes (the `ExitStack` is released inside
the `schema_editor` scope): after any unit, successful or failed, every
model's `db_table` equals its original value. -/
theorem C1_rename_restored_on_every_exit :
    ∀ (vendor default_schema : String) (fmt : String → String → String)
      (ddlFails : Nat → Bool) (ms : List MModel),
      (processConnectionUnit (djangoRename vendor default_schema fmt)
        ddlFails ms).models = ms :=
  fun _ _ fmt ddl ms =>
    processConnectionUnit_models (djangoRename _ _ fmt) ddl ms

/-- C5 counterexample: two models grouped onto two different connections,
with a `SchemaError` raised in the first connection's unit
(`ddlFails 0 0 = true`).  The claim says the second connection's unit is
still processed and can commit; in the code the exception propagates out of
the `for connection … in models_by_connection.items()` loop, so the run's
trace contains only the first unit's (errored, rolled-back) outcome and the
second connection's unit is never processed at all. -/
theorem C5_counterexample :
    processRun (fun s => some s) (fun g _ => g == 0)
        [[⟨"appa", "ta", false⟩], [⟨"appb", "tb", false⟩]] =
      [⟨[⟨"appa", "ta", false⟩], [0], false, true⟩] := by decide

/-- C5 amended: a SchemaError in one connection's unit stops the whole run,
not just that connection's scope: the run's trace is the prefix of the
per-connection outcomes up to and including the first errored unit — each
unit that did run has exactly the outcome it would have in isolation (so
connections committed before the failure stay committed), every unit
before the failing one is non-errored, and no unit after the failing one is
processed. -/
theorem C5_schema_error_stops_the_run :
    ∀ (rename : String → Option String) (ddlFails : Nat → Nat → Bool)
      (groups : List (List MModel)),
      processRun rename ddlFails groups =
        takeThroughFirstErrored (unitOutcomes rename ddlFails groups)
      ∧ ∀ o ∈ (processRun rename ddlFails groups).dropLast,
          o.errored = false := by
  intro rename ddlFails groups
  constructor
  · exact processRunFrom_eq_take rename ddlFails groups 0
  · intro o ho
    rw [processRun, processRunFrom_eq_take rename ddlFails groups 0] at ho
    exact takeThrough_dropLast_not_errored _ o ho

/-- Witness for C5's amended theorem at a concrete two-connection run with
no failures: both unit outcomes appear, and the first (non-last) outcome is
non-errored. -/
theorem C5_schema_error_stops_the_run_witness :
    processRun (fun s => some s) (fun _ _ => false)
        [[⟨"appa", "ta", false⟩], [⟨"appb", "tb", false⟩]] =
      takeThroughFirstErrored (unitOutcomes (fun s => some s)
        (fun _ _ => false)
        [[⟨"appa", "ta", false⟩], [⟨"appb", "tb", false⟩]])
    ∧ (⟨[⟨"appa", "ta", false⟩], [0], true, false⟩ : UnitOutcome).errored
        = false :=
  ⟨(C5_schema_error_stops_the_run (fun s => some s) (fun _ _ => false)
      [[⟨"appa", "ta", false⟩], [⟨"appb", "tb", false⟩]]).1,
   (C5_schema_error_stops_the_run (fun s => some s) (fun _ _ => false)
      [[⟨"appa", "ta", false⟩], [⟨"appb", "tb", false⟩]]).2
     ⟨[⟨"appa", "ta", false⟩], [0], true, false⟩ (by decide)⟩

/-- C6 counterexample: a group whose second model's raw name `"[x]"` is
bracketed but dotless.  The claim says the parse failure happens before any
rename for that connection begins; in the trace below, at the moment model
1's parse raises, model 0's rename to `"public.t"` has already been
installed (the stack records it), refuting "before any rename … begins".
(The source also raises a plain `IndexError`, not the claim's
`NameParseError`, which exists nowhere in the repository.) -/
theorem C6_counterexample :
    enterFrom (djangoRename "postgresql" "public" (fun s t => s ++ "." ++ t))
        (List.range 2) [⟨"appa", "t", false⟩, ⟨"appa", "[x]", false⟩] [] =
      ([⟨"appa", "public.t", false⟩, ⟨"appa", "[x]", false⟩],
       [(0, "t")], false) := by decide

/-- C6 amended: for every malformed bracket identifier (containing `[` and
`]` but no `.`), `parse_table_name` fails immediately at parse time (an
unhandled `IndexError` in the source rather than a dedicated
`NameParseError`), before any DDL for that connection begins
(`processed = []` when the rename phase fails); renames already applied to
earlier models of the group are all reverted before the error propagates,
so no partial state remains. -/
theorem C6_malformed_name_fails_at_parse_time :
    (∀ ds raw : String, strContains raw '[' = true →
      strContains raw ']' = true → strContains raw '.' = false →
      parse_table_name ds raw = none)
    ∧ ∀ (rename : String → Option String) (ddlFails : Nat → Bool)
        (ms : List MModel),
        (processConnectionUnit rename ddlFails ms).models = ms
        ∧ ((enterFrom rename (List.range ms.length) ms []).2.2 = false →
            (processConnectionUnit rename ddlFails ms).processed = []) := by
  constructor
  · intro ds raw h1 h2 h3
    unfold parse_table_name
    rw [h1, h2]
    simp only [Bool.and_self, if_true]
    rw [splitOnceChar_eq_none '.' raw.data h3]
  · intro rename ddlFails ms
    exact ⟨processConnectionUnit_models rename ddlFails ms,
      processConnectionUnit_processed_nil rename ddlFails ms⟩

/-- Witness for C6's amended theorem: the malformed name `"[x]"` fails to
parse, and a one-model group with that name leaves the model untouched with
no DDL attempted. -/
theorem C6_malformed_name_fails_at_parse_time_witness :
    parse_table_name "dbo" "[x]" = none
    ∧ (processConnectionUnit
        (djangoRename "postgresql" "public" (fun s t => s ++ "." ++ t))
        (fun _ => false) [⟨"appa", "[x]", false⟩]).models =
        [⟨"appa", "[x]", false⟩]
    ∧ (processConnectionUnit
        (djangoRename "postgresql" "public" (fun s t => s ++ "." ++ t))
        (fun _ => false) [⟨"appa", "[x]", false⟩]).processed = [] :=
  ⟨C6_malformed_name_fails_at_parse_time.1 "dbo" "[x]" rfl rfl rfl,
   (C6_malformed_name_fails_at_parse_time.2
      (djangoRename "postgresql" "public" (fun s t => s ++ "." ++ t))
      (fun _ => false) [⟨"appa", "[x]", false⟩]).1,
   (C6_malformed_name_fails_at_parse_time.2
      (djangoRename "postgresql" "public" (fun s t => s ++ "." ++ t))
      (fun _ => false) [⟨"appa", "[x]", false⟩]).2 (by decide)⟩

/-! ### Helper lemmas: type compatibility -/

theorem any_congr_mem {α : Type} {l : List α} {f g : α → Bool}
    (h : ∀ x ∈ l, f x = g x) : l.any f = l.any g := by
  induction l with
  | nil => rfl
  | cons x xs ih =>
    simp only [List.any_cons]
    rw [h x (List.mem_cons_self x xs),
      ih (fun y hy => h y (List.mem_cons_of_mem x hy))]

/-- No synonym group of the fixed partition contains the empty string. -/
theorem no_group_contains_empty :
    ∀ g ∈ compatible_types, g.2.contains "" = false := by decide

/-- On every group of the partition, membership of the claim's canonical
form agrees with membership of the code's lowered form: an unknown name's
lowered form is in no group, exactly like the empty string the claim
canonicalizes it to. -/
theorem contains_canonical (g : String × List String)
    (hg : g ∈ compatible_types) (s : String) :
    g.2.contains (canonical_type s) =
      g.2.contains (if s = "" then "" else pyLower s) := by
  unfold canonical_type
  by_cases h : compatible_types.any
      (fun g' => g'.2.contains (if s = "" then "" else pyLower s)) = true
  · rw [if_pos h]
  · rw [if_neg h]
    rw [Bool.not_eq_true, List.any_eq_false] at h
    have h2 := h g hg
    rw [Bool.not_eq_true] at h2
    rw [h2, no_group_contains_empty g hg]

/-- C3: `types_are_compatible` returns true iff the canonicalized forms of
its arguments both belong to the same synonym group of the closed
partition, where an empty or unknown name canonicalizes to the empty
string and so belongs to no group — hence the empty name is compatible
with nothing, including another empty name — and the spec's three examples
hold. -/
theorem C3_compatibility_is_same_group_membership :
    (∀ a b, types_are_compatible a b = compatible_spec a b)
    ∧ (∀ b, types_are_compatible "" b = false)
    ∧ (∀ a, types_are_compatible a "" = false)
    ∧ types_are_compatible "INT" "integer" = true
    ∧ types_are_compatible "varchar" "int" = false
    ∧ types_are_compatible "" "int" = false := by
  refine ⟨?_, ?_, ?_, by decide, by decide, by decide⟩
  · intro a b
    simp only [types_are_compatible, compatible_spec]
    exact any_congr_mem (fun g hg => by
      rw [contains_canonical g hg a, contains_canonical g hg b])
  · intro b
    rw [show types_are_compatible "" b = compatible_types.any
      (fun g => g.2.contains "" &&
        g.2.contains (if b = "" then "" else pyLower b)) from rfl]
    rw [List.any_eq_false]
    intro g hg
    have hne : "" ∉ g.2 := by
      have hc := no_group_contains_empty g hg
      simpa using hc
    simp [hne]
  · intro a
    rw [show types_are_compatible a "" = compatible_types.any
      (fun g => g.2.contains (if a = "" then "" else pyLower a) &&
        g.2.contains "") from rfl]
    rw [List.any_eq_false]
    intro g hg
    have hne : "" ∉ g.2 := by
      have hc := no_group_contains_empty g hg
      simpa using hc
    simp [hne]

/-- C4: `types_are_compatible` is symmetric — the membership test
`existing in group and expected in group` is orderless. -/
theorem C4_types_are_compatible_symmetric :
    ∀ a b, types_are_compatible a b = types_are_compatible b a := by
  intro a b
  simp only [types_are_compatible]
  exact any_congr_mem (fun g _ => Bool.and_comm _ _)

/-! ### Helper lemmas: case-folding -/

theorem char_toNat_ofNat (n : Nat) (h : n.isValidChar) :
    (Char.ofNat n).toNat = n := by
  simp only [Char.ofNat, dif_pos h]
  rfl

theorem char_toLower_toLower (c : Char) : c.toLower.toLower = c.toLower := by
  by_cases h : c.toNat ≥ 65 ∧ c.toNat ≤ 90
  · have h1 : Char.toLower c = Char.ofNat (c.toNat + 32) := by
      unfold Char.toLower; simp [h]
    have hv : Nat.isValidChar (c.toNat + 32) := by
      left; omega
    have h2 : (Char.ofNat (c.toNat + 32)).toNat = c.toNat + 32 :=
      char_toNat_ofNat _ hv
    rw [h1]
    conv_lhs => unfold Char.toLower
    simp only [h2]
    have hne : ¬(c.toNat + 32 ≥ 65 ∧ c.toNat + 32 ≤ 90) := by omega
    simp only [hne, if_false, reduceIte]
  · have h1 : Char.toLower c = c := by
      unfold Char.toLower; simp [h]
    rw [h1, h1]

theorem pyLower_pyLower (s : String) : pyLower (pyLower s) = pyLower s := by
  simp only [pyLower, List.map_map]
  have hcomp : Char.toLower ∘ Char.toLower = Char.toLower :=
    funext char_toLower_toLower
  rw [hcomp]

theorem pyLower_eq_empty_iff (s : String) : pyLower s = "" ↔ s = "" := by
  cases s with
  | mk d =>
    constructor
    · intro h
      have hd : d.map Char.toLower = [] := congrArg String.data h
      have hnil : d = [] := List.map_eq_nil_iff.mp hd
      rw [hnil]
    · intro h
      rw [h]
      rfl

/-- C7 counterexample: `types_are_compatible` does not trim.  With
surrounding whitespace (`" int"` vs `"int"`) the code answers false, while
on the trimmed inputs it answers true, so compatibility is not invariant
under trimming. -/
theorem C7_counterexample :
    types_are_compatible " int" "int" ≠
      types_are_compatible (pyStripWS " int") (pyStripWS "int") := by decide

/-- C7 amended: `types_are_compatible` canonicalizes both inputs by
case-folding only — it does not trim — so it is invariant under
case-folding of either input, but not under surrounding whitespace. -/
theorem C7_invariant_under_case_folding_only :
    ∀ a b, types_are_compatible a b =
      types_are_compatible (pyLower a) (pyLower b) := by
  have key : ∀ s : String,
      (if pyLower s = "" then "" else pyLower (pyLower s)) =
        (if s = "" then "" else pyLower s) := by
    intro s
    by_cases h : s = ""
    · subst h
      rw [if_pos rfl, if_pos]
      rfl
    · rw [if_neg h, if_neg (fun he => h ((pyLower_eq_empty_iff s).mp he)),
        pyLower_pyLower]
  intro a b
  simp only [types_are_compatible]
  rw [key a, key b]

/-! ### Helper lemmas: the qualified-name grammar -/

theorem str_mk_data (s : String) : (⟨s.data⟩ : String) = s := rfl

/-- Splitting on the first separator: when the left part is
separator-free, `split(sep, 1)` returns exactly the two sides. -/
theorem splitOnceChar_append (c : Char) (pre post : List Char)
    (h : pre.contains c = false) :
    splitOnceChar c (pre ++ c :: post) = some (pre, post) := by
  induction pre with
  | nil => simp [splitOnceChar]
  | cons x xs ih =>
    rw [List.contains_cons, Bool.or_eq_false_iff] at h
    have hxc : x ≠ c := Ne.symm (beq_eq_false_iff_ne.mp h.1)
    simp [splitOnceChar, hxc, ih h.2]

theorem contains_append_mid (l r : List Char) (c : Char) :
    (l ++ c :: r).contains c = true := by
  induction l with
  | nil => simp [List.contains_cons]
  | cons x xs ih => simp [List.contains_cons, ih]

theorem data_append_dot (pre post : String) :
    (pre ++ "." ++ post).data = pre.data ++ '.' :: post.data := by
  rw [String.data_append, String.data_append]
  simp

/-- C2: `parse_table_name` follows the three-rule grammar.  Rule 1: a raw
name containing both `[` and `]` is split on its first `.` (here `pre` is
the dot-free left side) and `[`/`]` are stripped from each side
independently.  Rule 2: otherwise a name containing `.` splits on the
first `.` only, the table side keeping any further dots.  Rule 3:
otherwise the default schema is used.  In every case enclosing single or
double quotes are then stripped from each part, and the spec's three
examples hold. -/
theorem C2_parse_table_name_grammar :
    (∀ d pre post : String, strContains pre '.' = false →
      strContains (pre ++ "." ++ post) '[' = true →
      strContains (pre ++ "." ++ post) ']' = true →
      parse_table_name d (pre ++ "." ++ post) =
        some (stripQuotes (pyStrip ['[', ']'] pre),
              stripQuotes (pyStrip ['[', ']'] post)))
    ∧ (∀ d pre post : String, strContains pre '.' = false →
      (strContains (pre ++ "." ++ post) '[' = false ∨
        strContains (pre ++ "." ++ post) ']' = false) →
      parse_table_name d (pre ++ "." ++ post) =
        some (stripQuotes pre, stripQuotes post))
    ∧ (∀ d raw : String, strContains raw '.' = false →
      (strContains raw '[' = false ∨ strContains raw ']' = false) →
      parse_table_name d raw = some (stripQuotes d, stripQuotes raw))
    ∧ (∀ d : String,
        parse_table_name d "[sales].[orders]" = some ("sales", "orders"))
    ∧ (∀ d : String,
        parse_table_name d "sales.orders" = some ("sales", "orders"))
    ∧ parse_table_name "dbo" "orders" = some ("dbo", "orders") := by
  refine ⟨?_, ?_, ?_, fun d => rfl, fun d => rfl, rfl⟩
  · intro d pre post hpre h1 h2
    unfold parse_table_name
    rw [h1, h2]
    simp only [Bool.and_self, if_true]
    rw [data_append_dot, splitOnceChar_append '.' pre.data post.data hpre]
  · intro d pre post hpre hbr
    have hcond : (strContains (pre ++ "." ++ post) '[' &&
        strContains (pre ++ "." ++ post) ']') = false := by
      rcases hbr with h | h <;> simp [h]
    have hdot : strContains (pre ++ "." ++ post) '.' = true := by
      show (pre ++ "." ++ post).data.contains '.' = true
      rw [data_append_dot]
      exact contains_append_mid pre.data post.data '.'
    unfold parse_table_name
    rw [hcond, hdot]
    simp only [Bool.false_eq_true, if_false, if_true]
    rw [data_append_dot, splitOnceChar_append '.' pre.data post.data hpre]
  · intro d raw hdot hbr
    have hcond : (strContains raw '[' && strContains raw ']') = false := by
      rcases hbr with h | h <;> simp [h]
    unfold parse_table_name
    rw [hcond, hdot]
    simp only [Bool.false_eq_true, if_false]

/-- Witness for C2 at concrete inputs of each rule: a bracketed name whose
table part keeps its inner dot, a dotted name whose table part keeps its
second dot, and a bare name taking the default schema. -/
theorem C2_parse_table_name_grammar_witness :
    parse_table_name "d" "[s].[t.u]" = some ("s", "t.u")
    ∧ parse_table_name "d" "a.b.c" = some ("a", "b.c")
    ∧ parse_table_name "dbo" "orders2" = some ("dbo", "orders2") :=
  ⟨C2_parse_table_name_grammar.1 "d" "[s]" "[t.u]" rfl rfl rfl,
   C2_parse_table_name_grammar.2.1 "d" "a" "b.c" rfl (Or.inl rfl),
   C2_parse_table_name_grammar.2.2.1 "dbo" "orders2" rfl (Or.inl rfl)⟩

/-- C10: the dispatch and collection routines have no observable effect on
the manager's state: `model_dispatcher` computes the model's app label into
a dead local and returns Python `None` with the manager (in particular
`self.handlers`) unchanged, and `collect_unmanaged_models` constructs its
`ModelData` objects (`collected_model_data`) but discards every one,
returning `None` with every field of the manager unchanged. -/
theorem C10_dispatch_and_collect_have_no_effect :
    (∀ (self : DatabaseManager) (model : MModel) (s : Settings),
      model_dispatcher self model s = (self, none))
    ∧ ∀ (self : DatabaseManager) (cfg : AppConfig),
      collect_unmanaged_models self cfg = (self, ()) :=
  ⟨fun _ _ _ => rfl, fun _ _ => rfl⟩

/-! ### Helper lemmas: grouping by connection -/

theorem lookup_cons {β : Type} (k : String) (v : β)
    (rest : List (String × β)) (b : String) :
    List.lookup b ((k, v) :: rest) = if b = k then some v
      else List.lookup b rest := by
  by_cases h : b = k
  · subst h
    simp [List.lookup]
  · have h1 : (b == k) = false := beq_eq_false_iff_ne.mpr h
    have h2 : (k == b) = false := beq_eq_false_iff_ne.mpr (Ne.symm h)
    simp [List.lookup, h, h1, h2]

theorem insertIntoGroup_cons_self (k : String) (ms0 : List MModel)
    (rest : List (String × List MModel)) (m : MModel) :
    insertIntoGroup ((k, ms0) :: rest) k m = (k, ms0 ++ [m]) :: rest := by
  simp [insertIntoGroup]

theorem insertIntoGroup_cons_ne (k : String) (ms0 : List MModel)
    (rest : List (String × List MModel)) (a : String) (m : MModel)
    (hk : ¬ k = a) :
    insertIntoGroup ((k, ms0) :: rest) a m =
      (k, ms0) :: insertIntoGroup rest a m := by
  simp [insertIntoGroup, hk]

theorem lookup_insertIntoGroup (acc : List (String × List MModel))
    (a : String) (m : MModel) (b : String) :
    (insertIntoGroup acc a m).lookup b =
      if b = a then some (((acc.lookup a).getD []) ++ [m])
      else acc.lookup b := by
  induction acc with
  | nil =>
    show List.lookup b [(a, [m])] = _
    rw [lookup_cons]
    by_cases hb : b = a
    · rw [if_pos hb, if_pos hb]
      rfl
    · rw [if_neg hb, if_neg hb]
  | cons kv rest ih =>
    obtain ⟨k, ms0⟩ := kv
    by_cases hk : k = a
    · subst hk
      rw [insertIntoGroup_cons_self]
      by_cases hb : b = k
      · rw [lookup_cons, if_pos hb, if_pos hb, lookup_cons, if_pos rfl]
        rfl
      · rw [lookup_cons, if_neg hb, if_neg hb, lookup_cons, if_neg hb]
    · rw [insertIntoGroup_cons_ne k ms0 rest a m hk]
      have hak : ¬ a = k := fun hh => hk hh.symm
      by_cases hb : b = k
      · have hba : ¬ b = a := fun hh => hk ((hb.symm.trans hh).symm ▸ rfl)
        rw [lookup_cons, if_pos hb, if_neg hba, lookup_cons, if_pos hb]
      · rw [lookup_cons, if_neg hb, ih]
        by_cases hba : b = a
        · rw [if_pos hba, if_pos hba, lookup_cons, if_neg hak]
        · rw [if_neg hba, if_neg hba, lookup_cons, if_neg hb]

/-- Keys of the grouping dictionary after one insertion. -/
theorem mem_keys_insertIntoGroup (acc : List (String × List MModel))
    (a : String) (m : MModel) (b : String)
    (hb : b ∈ (insertIntoGroup acc a m).map Prod.fst) :
    b ∈ acc.map Prod.fst ∨ b = a := by
  induction acc with
  | nil =>
    simp [insertIntoGroup] at hb
    exact Or.inr hb
  | cons kv rest ih =>
    obtain ⟨k, ms0⟩ := kv
    by_cases hk : k = a
    · subst hk
      rw [insertIntoGroup_cons_self] at hb
      simp only [List.map_cons, List.mem_cons] at hb ⊢
      rcases hb with h | h
      · exact Or.inl (Or.inl h)
      · exact Or.inl (Or.inr h)
    · rw [insertIntoGroup_cons_ne k ms0 rest a m hk] at hb
      simp only [List.map_cons, List.mem_cons] at hb ⊢
      rcases hb with h | h
      · exact Or.inl (Or.inl h)
      · rcases ih h with h2 | h2
        · exact Or.inl (Or.inr h2)
        · exact Or.inr h2

theorem keys_nodup_insertIntoGroup (acc : List (String × List MModel))
    (a : String) (m : MModel)
    (h : (acc.map Prod.fst).Nodup) :
    ((insertIntoGroup acc a m).map Prod.fst).Nodup := by
  induction acc with
  | nil => simp [insertIntoGroup]
  | cons kv rest ih =>
    obtain ⟨k, ms0⟩ := kv
    simp only [List.map_cons, List.nodup_cons] at h
    by_cases hk : k = a
    · subst hk
      rw [insertIntoGroup_cons_self]
      simp only [List.map_cons, List.nodup_cons]
      exact h
    · rw [insertIntoGroup_cons_ne k ms0 rest a m hk]
      simp only [List.map_cons, List.nodup_cons]
      refine ⟨?_, ih h.2⟩
      intro hmem
      rcases mem_keys_insertIntoGroup rest a m k hmem with h2 | h2
      · exact h.1 h2
      · exact hk h2

/-- The grouping loop, characterized through dictionary lookup: after
folding the models into the accumulator, alias `a`'s bucket is the
accumulator's bucket extended by exactly the models resolving to `a`, in
input order. -/
theorem lookup_group_foldl (mapping : List (String × String)) :
    ∀ (ms : List MModel) (acc : List (String × List MModel)) (a : String),
      (ms.foldl (fun acc m =>
          insertIntoGroup acc (resolve_db_alias mapping m.app_label) m)
        acc).lookup a =
        (match acc.lookup a,
            ms.filter (fun m =>
              resolve_db_alias mapping m.app_label == a) with
          | some l, f => some (l ++ f)
          | none, [] => none
          | none, f => some f) := by
  intro ms
  induction ms with
  | nil =>
    intro acc a
    simp only [List.foldl_nil, List.filter_nil]
    cases acc.lookup a <;> simp
  | cons m ms ih =>
    intro acc a
    simp only [List.foldl_cons]
    rw [ih]
    by_cases hm : resolve_db_alias mapping m.app_label = a
    · rw [lookup_insertIntoGroup, if_pos hm.symm, hm]
      have hf : (m :: ms).filter
          (fun m => resolve_db_alias mapping m.app_label == a) =
          m :: ms.filter
            (fun m => resolve_db_alias mapping m.app_label == a) := by
        simp [List.filter_cons, hm]
      rw [hf]
      cases hacc : acc.lookup a with
      | none =>
        simp only [Option.getD_none, List.nil_append]
        cases ms.filter
            (fun m => resolve_db_alias mapping m.app_label == a) <;> simp
      | some l =>
        simp only [Option.getD_some]
        cases ms.filter
            (fun m => resolve_db_alias mapping m.app_label == a) <;> simp

    · rw [lookup_insertIntoGroup, if_neg (fun hh => hm hh.symm)]
      have hf : (m :: ms).filter
          (fun m => resolve_db_alias mapping m.app_label == a) =
          ms.filter
            (fun m => resolve_db_alias mapping m.app_label == a) := by
        simp [List.filter_cons, hm]
      rw [hf]

theorem keys_nodup_group_foldl (mapping : List (String × String)) :
    ∀ (ms : List MModel) (acc : List (String × List MModel)),
      (acc.map Prod.fst).Nodup →
      (((ms.foldl (fun acc m =>
          insertIntoGroup acc (resolve_db_alias mapping m.app_label) m)
        acc)).map Prod.fst).Nodup := by
  intro ms
  induction ms with
  | nil => intro acc h; exact h
  | cons m ms ih =>
    intro acc h
    simp only [List.foldl_cons]
    exact ih _ (keys_nodup_insertIntoGroup acc _ m h)

/-- C9 counterexample: the mapping has an entry for the app label, but its
value is the empty string — falsy in Python — so `process_models` falls
back to `"default"` instead of the mapped alias, contradicting the claim
that the mapped alias is used whenever an entry exists. -/
theorem C9_counterexample :
    ([("app", "")] : List (String × String)).lookup "app" = some ""
    ∧ resolve_db_alias [("app", "")] "app" = "default" := by decide

/-- C9 amended: every model resolves to exactly one connection alias — the
mapped alias when the mapping has an entry for its app label with a
non-empty (truthy) value, and `"default"` when the mapping is empty, has
no entry, or the entry's value is the empty string; models are then
grouped by resolved alias into a dictionary with pairwise-distinct keys
(each distinct connection visited exactly once), alias `a`'s group being
exactly the models resolving to `a`, in input order. -/
theorem C9_connection_resolution_and_grouping :
    (∀ (mapping : List (String × String)) (label : String),
      (mapping = [] → resolve_db_alias mapping label = "default")
      ∧ (mapping.lookup label = none →
          resolve_db_alias mapping label = "default")
      ∧ (mapping.lookup label = some "" →
          resolve_db_alias mapping label = "default")
      ∧ (∀ v, mapping.lookup label = some v → v ≠ "" →
          resolve_db_alias mapping label = v))
    ∧ ∀ (mapping : List (String × String)) (ms : List MModel),
      ((groupModelsByAlias mapping ms).map Prod.fst).Nodup
      ∧ ∀ a, (groupModelsByAlias mapping ms).lookup a =
          (match ms.filter
              (fun m => resolve_db_alias mapping m.app_label == a) with
            | [] => none
            | f => some f) := by
  constructor
  · intro mapping label
    refine ⟨?_, ?_, ?_, ?_⟩
    · intro h
      subst h
      rfl
    · intro h
      cases mapping with
      | nil => rfl
      | cons kv rest =>
        unfold resolve_db_alias
        simp only [List.isEmpty_cons, Bool.false_eq_true, if_false]
        rw [h]
    · intro h
      cases mapping with
      | nil => simp at h
      | cons kv rest =>
        unfold resolve_db_alias
        simp only [List.isEmpty_cons, Bool.false_eq_true, if_false]
        rw [h]
        rfl
    · intro v h hv
      cases mapping with
      | nil => simp at h
      | cons kv rest =>
        unfold resolve_db_alias
        simp only [List.isEmpty_cons, Bool.false_eq_true, if_false]
        rw [h]
        show (if v = "" then "default" else v) = v
        rw [if_neg hv]
  · intro mapping ms
    constructor
    · exact keys_nodup_group_foldl mapping ms [] (by simp)
    · intro a
      show (ms.foldl (fun acc m =>
          insertIntoGroup acc (resolve_db_alias mapping m.app_label) m)
        []).lookup a = _
      rw [lookup_group_foldl mapping ms [] a]
      generalize ms.filter
        (fun m => resolve_db_alias mapping m.app_label == a) = f
      cases f <;> rfl

/-- Witness for C9's amended theorem: a truthy mapping entry is used, and a
one-model group lands under the `"default"` alias with duplicate-free
keys. -/
theorem C9_connection_resolution_and_grouping_witness :
    resolve_db_alias [("app", "db1")] "app" = "db1"
    ∧ ((groupModelsByAlias [] [⟨"appa", "t", false⟩]).map Prod.fst).Nodup
    ∧ (groupModelsByAlias [] [⟨"appa", "t", false⟩]).lookup "default" =
        some [⟨"appa", "t", false⟩] :=
  ⟨(C9_connection_resolution_and_grouping.1 [("app", "db1")] "app").2.2.2
      "db1" (by decide) (by decide),
   (C9_connection_resolution_and_grouping.2 [] [⟨"appa", "t", false⟩]).1,
   ((C9_connection_resolution_and_grouping.2 []
      [⟨"appa", "t", false⟩]).2 "default").trans (by decide)⟩

/-! ### Helper lemmas: substring membership and the modelled pipeline -/

theorem leadsWith_iff (n : List Char) : ∀ h : List Char,
    leadsWith n h = true ↔ ∃ r, h = n ++ r := by
  induction n with
  | nil =>
    intro h
    simp [leadsWith]
  | cons a as ih =>
    intro h
    cases h with
    | nil => simp [leadsWith]
    | cons b bs =>
      simp only [leadsWith, Bool.and_eq_true, beq_iff_eq, ih bs]
      constructor
      · rintro ⟨hab, r, hr⟩
        exact ⟨r, by rw [List.cons_append, ← hab, hr]⟩
      · rintro ⟨r, hr⟩
        rw [List.cons_append] at hr
        injection hr with h1 h2
        exact ⟨h1.symm, r, h2⟩

theorem occursWithin_iff (n : List Char) : ∀ h : List Char,
    occursWithin n h = true ↔ ∃ l r, h = l ++ (n ++ r) := by
  intro h
  induction h with
  | nil =>
    simp only [occursWithin, leadsWith_iff]
    constructor
    · rintro ⟨r, hr⟩
      exact ⟨[], r, by simpa using hr⟩
    · rintro ⟨l, r, hr⟩
      have hl : l = [] ∧ n ++ r = [] := by
        constructor
        · cases l with
          | nil => rfl
          | cons x xs => simp at hr
        · cases l with
          | nil => simpa using hr
          | cons x xs => simp at hr
      exact ⟨r, by rw [← hl.2]⟩
  | cons c t ih =>
    simp only [occursWithin, Bool.or_eq_true, leadsWith_iff, ih]
    constructor
    · rintro (⟨r, hr⟩ | ⟨l, r, hr⟩)
      · exact ⟨[], r, by simpa using hr⟩
      · exact ⟨c :: l, r, by rw [List.cons_append, ← hr]⟩
    · rintro ⟨l, r, hr⟩
      cases l with
      | nil => exact Or.inl ⟨r, by simpa using hr⟩
      | cons x xs =>
        rw [List.cons_append] at hr
        injection hr with h1 h2
        exact Or.inr ⟨xs, r, h2⟩

theorem mem_group_insertIntoGroup
    (acc : List (String × List MModel)) (a : String) (m : MModel)
    (b : String) (grp : List MModel) (x : MModel)
    (h : (b, grp) ∈ insertIntoGroup acc a m) (hx : x ∈ grp) :
    (∃ grp0, (b, grp0) ∈ acc ∧ x ∈ grp0) ∨ x = m := by
  induction acc with
  | nil =>
    simp only [insertIntoGroup, List.mem_singleton, Prod.mk.injEq] at h
    rw [h.2] at hx
    simp at hx
    exact Or.inr hx
  | cons kv rest ih =>
    obtain ⟨k, ms0⟩ := kv
    by_cases hk : k = a
    · subst hk
      rw [insertIntoGroup_cons_self] at h
      rcases List.mem_cons.mp h with h1 | h1
      · rw [show grp = ms0 ++ [m] from congrArg Prod.snd h1] at hx
        rcases List.mem_append.mp hx with h2 | h2
        · exact Or.inl ⟨ms0, by
            rw [show b = k from congrArg Prod.fst h1]
            exact List.mem_cons_self _ _, h2⟩
        · simp at h2
          exact Or.inr h2
      · exact Or.inl ⟨grp, List.mem_cons_of_mem _ h1, hx⟩
    · rw [insertIntoGroup_cons_ne k ms0 rest a m hk] at h
      rcases List.mem_cons.mp h with h1 | h1
      · exact Or.inl ⟨grp, by rw [h1]; exact List.mem_cons_self _ _, hx⟩
      · rcases ih h1 with ⟨grp0, hg, hxg⟩ | h2
        · exact Or.inl ⟨grp0, List.mem_cons_of_mem _ hg, hxg⟩
        · exact Or.inr h2

theorem mem_group_foldl (mapping : List (String × String)) :
    ∀ (ms : List MModel) (acc : List (String × List MModel))
      (b : String) (grp : List MModel) (x : MModel),
      (b, grp) ∈ ms.foldl (fun acc m =>
        insertIntoGroup acc (resolve_db_alias mapping m.app_label) m) acc →
      x ∈ grp →
      (∃ grp0, (b, grp0) ∈ acc ∧ x ∈ grp0) ∨ x ∈ ms := by
  intro ms
  induction ms with
  | nil =>
    intro acc b grp x h hx
    exact Or.inl ⟨grp, h, hx⟩
  | cons m ms ih =>
    intro acc b grp x h hx
    rw [List.foldl_cons] at h
    rcases ih _ b grp x h hx with ⟨grp0, hg, hxg⟩ | h2
    · rcases mem_group_insertIntoGroup acc _ m b grp0 x hg hxg with
        ⟨grp1, hg1, hxg1⟩ | h3
      · exact Or.inl ⟨grp1, hg1, hxg1⟩
      · exact Or.inr (by rw [h3]; exact List.mem_cons_self _ _)
    · exact Or.inr (List.mem_cons_of_mem _ h2)

theorem mem_foldr_filter_append (q : MModel → Bool) (x : MModel) :
    ∀ l : List AppConfig,
      x ∈ l.foldr (fun cfg acc => cfg.models.filter q ++ acc) [] →
      ∃ cfg, cfg ∈ l ∧ x ∈ cfg.models.filter q := by
  intro l
  induction l with
  | nil => intro h; simp at h
  | cons c cs ih =>
    intro h
    rw [List.foldr_cons] at h
    rcases List.mem_append.mp h with h1 | h1
    · exact ⟨c, List.mem_cons_self _ _, h1⟩
    · obtain ⟨cfg, hc, hx⟩ := ih h1
      exact ⟨cfg, List.mem_cons_of_mem _ hc, hx⟩

/-- C8: `is_app_eligible` accepts an app iff the configured excluded-path
substring (default `"site-packages"`) does not occur in the app's path, or
the last dotted component of the app's name is in the
`ADDITIONAL_UNMANAGED_TABLE_APPS` allow-list; and in the (spec-modelled)
entry point this filter runs once, before connection grouping: every model
in any group of the grouped run came from an app that passed the
filter. -/
theorem C8_eligibility_filter :
    (∀ (self_settings global_settings : Settings) (cfg : AppConfig),
      is_app_eligible self_settings global_settings cfg = true ↔
        ((¬ ∃ l r, cfg.path.data =
            l ++ ((self_settings.EXCLUDE_UNMANAGED_PATH.getD
              "site-packages").data ++ r))
          ∨ lastDotComponent cfg.name ∈
              global_settings.ADDITIONAL_UNMANAGED_TABLE_APPS.getD []))
    ∧ ∀ (ss gs : Settings) (apps : List AppConfig) (a : String)
        (grp : List MModel) (m : MModel),
        (a, grp) ∈ runGrouping ss gs apps → m ∈ grp →
        ∃ cfg, cfg ∈ apps ∧ is_app_eligible ss gs cfg = true
          ∧ m ∈ cfg.models := by
  constructor
  · intro ss gs cfg
    unfold is_app_eligible
    simp only [Bool.or_eq_true, Bool.not_eq_true', ← occursWithin_iff]
    constructor
    · rintro (h | h)
      · exact Or.inl (by rw [h]; exact Bool.false_ne_true)
      · exact Or.inr (by simpa using h)
    · rintro (h | h)
      · exact Or.inl (Bool.eq_false_iff.mpr h)
      · exact Or.inr (by simpa using h)
  · intro ss gs apps a grp m h hm
    unfold runGrouping groupModelsByAlias at h
    rcases mem_group_foldl gs.APP_TO_DATABASE_MAPPING _ [] a grp m h hm with
      ⟨grp0, hg, _⟩ | h2
    · simp at hg
    · obtain ⟨cfg, hc, hx⟩ :=
        mem_foldr_filter_append (fun m => !m.managed) m _ h2
      have hc2 := List.mem_filter.mp hc
      exact ⟨cfg, hc2.1, hc2.2, (List.mem_filter.mp hx).1⟩

/-- Witness for C8: a local app is eligible; a vendored app forced in by
the allow-list is eligible too, and its unmanaged model reaches the
grouped run only through the filter. -/
theorem C8_eligibility_filter_witness :
    is_app_eligible
        ⟨none, none, [], []⟩ ⟨none, some ["vendored"], [], []⟩
        ⟨"pkg.vendored", "/lib/site-packages/pkg", "vendored",
          [⟨"vendored", "t", false⟩]⟩ = true
    ∧ ∃ cfg, cfg ∈ [(⟨"pkg.vendored", "/lib/site-packages/pkg", "vendored",
          [⟨"vendored", "t", false⟩]⟩ : AppConfig)]
        ∧ is_app_eligible ⟨none, none, [], []⟩
            ⟨none, some ["vendored"], [], []⟩ cfg = true
        ∧ (⟨"vendored", "t", false⟩ : MModel) ∈ cfg.models :=
  ⟨(C8_eligibility_filter.1 ⟨none, none, [], []⟩
      ⟨none, some ["vendored"], [], []⟩
      ⟨"pkg.vendored", "/lib/site-packages/pkg", "vendored",
        [⟨"vendored", "t", false⟩]⟩).mpr (Or.inr (by decide)),
   C8_eligibility_filter.2 ⟨none, none, [], []⟩
      ⟨none, some ["vendored"], [], []⟩
      [⟨"pkg.vendored", "/lib/site-packages/pkg", "vendored",
        [⟨"vendored", "t", false⟩]⟩]
      "default" [⟨"vendored", "t", false⟩] ⟨"vendored", "t", false⟩
      (by decide) (by decide)⟩

end DjangoUnmanagedAssistant
